import Mathlib

set_option autoImplicit false

/-!
Verification development for the tarfs repository: a FUSE filesystem that
exposes a tar archive read-only.  The definitions below are a shallow
embedding of the Rust sources:

* `src/tree.rs`    — the inode tree (`Tarfs.Node`), its builder (`Tarfs.buildTree`),
  `Tree::walk`, `Node::read`, `Node::attr`, `push_child_node`;
* `src/filesystem.rs` — the mount-time FUSE adapter (`Tarfs.fsOpen`, `Tarfs.fsRead`);
* `src/node.rs` and `src/fs.rs` — the second adapter generation
  (`Tarfs.NNode.attr`, `Tarfs.afsOpen`).

Modelling conventions: machine integers are `Nat` (no arithmetic in the
modelled code overflows 64 bits on the inputs considered); byte strings
(`OsString`) are `String`, whose byte length is `String.utf8ByteSize` (the
spec declares non-UTF-8 names out of scope); paths are lists of path
components.  Fallible Rust code returns `Except`/`Option`; a Rust panic
(slice out of range, integer division by zero, `unwrap` on `None`) is
modelled as the `none` result of an `Option`-returning function.  The shared
mutable link counter (`Rc` + `AtomicU32`, initialised to 1) is modelled by a
log of increments keyed by node id: node ids of `File`/`Symlink` nodes are
unique, so the counter value is 1 plus the number of logged increments for
that id.
-/

namespace Tarfs

/-- POSIX error number `ENOENT`. -/
def ENOENT : Nat := 2

/-- POSIX error number `EIO`. -/
def EIO : Nat := 5

/-- POSIX error number `ENOTDIR`. -/
def ENOTDIR : Nat := 20

/-- POSIX error number `EISDIR`. -/
def EISDIR : Nat := 21

/-- POSIX error number `EINVAL`. -/
def EINVAL : Nat := 22

/-- POSIX error number `ENOSYS`. -/
def ENOSYS : Nat := 38

/-- fuser open flag `FOPEN_KEEP_CACHE` (1 << 1). -/
def FOPEN_KEEP_CACHE : Nat := 2

/-- fuser `FileType` values used by the program. -/
inductive FType where
  | regularFile
  | directory
  | symlink
deriving DecidableEq, Repr

/-- fuser `FileAttr`, with times as unix seconds. -/
structure FileAttr where
  ino : Nat
  size : Nat
  blocks : Nat
  atime : Nat
  mtime : Nat
  ctime : Nat
  crtime : Nat
  kind : FType
  perm : Nat
  nlink : Nat
  uid : Nat
  gid : Nat
  rdev : Nat
  blksize : Nat
  flags : Nat
deriving DecidableEq, Repr

/-- Node of `src/tree.rs`.  The Rust `Link` variant holds an `Rc` to its
target node; here the target is embedded structurally, and the shared
`link_count` cell is kept outside the tree (see `Node.attr`). -/
inductive Node where
  | dir (id : Nat) (name : String) (children : List Node)
      (mtime uid gid perms : Nat)
  | file (id : Nat) (name : String) (size mtime uid gid perms archiveIndex : Nat)
  | symlink (id : Nat) (name : String) (target : String) (mtime uid gid : Nat)
  | link (name : String) (target : Node)

/-- Rust `Node::id`: a `Link` exposes the id of its target. -/
def Node.id : Node → Nat
  | .dir i _ _ _ _ _ _ => i
  | .file i _ _ _ _ _ _ _ => i
  | .symlink i _ _ _ _ _ => i
  | .link _ t => Node.id t

/-- Rust `Node::name`. -/
def Node.name : Node → String
  | .dir _ n _ _ _ _ _ => n
  | .file _ n _ _ _ _ _ _ => n
  | .symlink _ n _ _ _ _ => n
  | .link n _ => n

/-- Rust `Node::children`: `Some` for a directory, `None` otherwise. -/
def Node.childrenOpt : Node → Option (List Node)
  | .dir _ _ cs _ _ _ _ => some cs
  | _ => none

/-- Rust `Node::link_target`: `Some` for a symlink, `None` otherwise. -/
def Node.linkTargetOpt : Node → Option String
  | .symlink _ _ t _ _ _ => some t
  | _ => none

/-- Whether the node is a `File` or a `Symlink` (the variants carrying a
link counter). -/
def Node.isFileOrSymlink : Node → Bool
  | .file _ _ _ _ _ _ _ _ => true
  | .symlink _ _ _ _ _ _ => true
  | _ => false

/-- Rust `Node::attr` of `src/tree.rs`.  `incs` is the log of
`inc_link_count` calls; `nlink` of a file or symlink with id `i` is the
initial 1 plus the number of increments logged for `i`.  A symlink reports
`target.len() as u64 + 1` as its size, exactly as the source does. -/
def Node.attr (incs : List Nat) : Node → FileAttr
  | .dir i _ _ m u g p =>
    { ino := i, size := 0, blocks := 0, atime := m, mtime := m, ctime := m,
      crtime := m, kind := .directory, perm := p, nlink := 1, uid := u,
      gid := g, rdev := 0, blksize := 0, flags := 0 }
  | .file i _ s m u g p _ =>
    { ino := i, size := s, blocks := 0, atime := m, mtime := m, ctime := m,
      crtime := m, kind := .regularFile, perm := p, nlink := 1 + incs.count i,
      uid := u, gid := g, rdev := 0, blksize := 0, flags := 0 }
  | .symlink i _ t m u g =>
    { ino := i, size := t.utf8ByteSize + 1, blocks := 0, atime := m,
      mtime := m, ctime := m, crtime := m, kind := .symlink, perm := 0o777,
      nlink := 1 + incs.count i, uid := u, gid := g, rdev := 0, blksize := 0,
      flags := 0 }
  | .link _ t => Node.attr incs t

mutual

/-- Rust `Node::find`: return the node itself when the id matches, otherwise
search the children of a directory depth-first. -/
def Node.find (n : Node) (i : Nat) : Option Node :=
  if Node.id n = i then some n
  else
    match n with
    | .dir _ _ children _ _ _ _ => Node.findList children i
    | _ => none

/-- Depth-first search over a list of sibling nodes, first hit wins. -/
def Node.findList (ns : List Node) (i : Nat) : Option Node :=
  match ns with
  | [] => none
  | c :: rest =>
    match Node.find c i with
    | some r => some r
    | none => Node.findList rest i

end

mutual

/-- Rust `Node::lookup`: in the directory whose id is `parent`, return the
first child whose name equals `name`; other directories recurse into their
children. -/
def Node.lookup (n : Node) (parent : Nat) (name : String) : Option Node :=
  match n with
  | .dir i _ children _ _ _ _ =>
    if i = parent then children.find? (fun c => Node.name c == name)
    else Node.lookupList children parent name
  | _ => none

/-- Recursion of `Node::lookup` over sibling lists. -/
def Node.lookupList (ns : List Node) (parent : Nat) (name : String) :
    Option Node :=
  match ns with
  | [] => none
  | c :: rest =>
    match Node.lookup c parent name with
    | some r => some r
    | none => Node.lookupList rest parent name

end

/-- First child whose name equals the component, as in the inner loop of
`Tree::walk`. -/
def childByName (cs : List Node) (c : String) : Option Node :=
  cs.find? (fun n => Node.name n == c)

/-- Loop body of Rust `Tree::walk`: for each component, `children()?` fails
the whole walk when the current node is not a directory; a matching child
becomes the current node; when no child matches, the current node stays
unchanged and the walk continues with the next component. -/
def walkAux : Node → List String → Option Node
  | cur, [] => some cur
  | cur, c :: rest =>
    match Node.childrenOpt cur with
    | none => none
    | some cs =>
      match childByName cs c with
      | some child => walkAux child rest
      | none => walkAux cur rest

/-- Rust `Tree::walk`: an empty path returns the root. -/
def treeWalk (root : Node) (path : List String) : Option Node :=
  if path.isEmpty then some root else walkAux root path

mutual

/-- Inner recursion of Rust `push_child_node`: descend along the parent
components into the first child with a matching name and append `child` to
the children of the directory reached.  The Rust function returns the child
back (`Some(child)`) to signal the orphan case and mutates in place; here
the updated root is returned on success and `none` signals the orphan
case (no matching child, or a non-directory on the way). -/
def pushChildInner : Node → List String → Node → Option Node
  | .dir i nm cs m u g p, [], child => some (.dir i nm (cs ++ [child]) m u g p)
  | .dir i nm cs m u g p, c :: rest, child =>
    (pushIntoFirst cs c rest child).map (fun cs2 => Node.dir i nm cs2 m u g p)
  | _, _, _ => none

/-- Find the first sibling whose name matches the component and push the
child into it; later siblings are not tried when the descent into the first
match fails, exactly as in the Rust loop. -/
def pushIntoFirst : List Node → String → List String → Node → Option (List Node)
  | [], _, _, _ => none
  | x :: xs, c, rest, child =>
    if Node.name x == c then
      (pushChildInner x rest child).map (fun x2 => x2 :: xs)
    else
      (pushIntoFirst xs c rest child).map (fun xs2 => x :: xs2)

end

/-- Rust `push_child_node`: the child is placed at the parent directory of
`path` (all components but the last); a path with a single component is
pushed directly at the root, matching the `Path::parent` handling of the
source. -/
def pushChildNode (root : Node) (path : List String) (child : Node) :
    Option Node :=
  pushChildInner root path.dropLast child

/-! ## Node::read (src/tree.rs)

Rust `Node::read` takes a fresh `Archive`, skips `archive_index` records,
clamps the offset to the entry size, computes the requested size, allocates
a buffer of that many bytes, fake-seeks by repeatedly filling the buffer,
and finally fills the buffer with the requested range.  The archive is the
list of entry bodies in stream order; a body has exactly `entry.size()`
bytes.  The result is `none` where the Rust code panics: `entries.next()`
unwraps `None` when the index is past the end, and `offset / size` divides
by zero when the offset is positive and the computed size is zero. -/

/-- One `read_exact` of `n` bytes by a reader standing at `pos` in a body of
`len` bytes: succeeds exactly when enough bytes remain, returning the new
position. -/
def readExact (len pos n : Nat) : Option Nat :=
  if pos + n ≤ len then some (pos + n) else none

/-- The fake-seek loop of `Node::read`: `k` iterations of
`read_exact(&mut buf)` where `buf` has `size` bytes. -/
def seekLoop (len size : Nat) : Nat → Nat → Option Nat
  | pos, 0 => some pos
  | pos, k + 1 =>
    match readExact len pos size with
    | some p2 => seekLoop len size p2 k
    | none => none

/-- Requested read size of `Node::read`: `min(length, size - offset)`, or
`size - offset` when no length is given, after the offset has been clamped
to the entry size. -/
def readSize (s o : Nat) : Option Nat → Nat
  | some n => min n (s - o)
  | none => s - o

/-- Fake seek of `Node::read` over a body of `s` bytes: when the clamped
offset `o` is positive, the loop runs `o / size` iterations of a full
buffer fill followed by a partial fill of `o % size` bytes; `o / size`
panics (`none`) when `size` is zero.  The result is the reader position
after the seek. -/
def fakeSeek (s o size : Nat) : Option Nat :=
  if 0 < o then
    if size = 0 then
      none
    else
      match seekLoop s size 0 (o / size) with
      | none => none
      | some p =>
        let rest := o % size
        if 0 < rest then readExact s p rest else some p
  else some 0

/-- Body of Rust `Node::read` acting on the entry body reached after the
skip.  The final buffer holds the `size` bytes following the bytes consumed
by the fake seek. -/
def nodeReadBody (body : List Nat) (offset : Nat) (length : Option Nat) :
    Option (List Nat) :=
  let s := body.length
  let o := min offset s
  let size := readSize s o length
  match fakeSeek s o size with
  | none => none
  | some p =>
    match readExact s p size with
    | some _ => some ((body.drop p).take size)
    | none => none

/-- Rust `Node::read` over a fresh archive iteration: skip `archiveIndex`
records (`entries.next().unwrap()` panics when none is left) and read from
the body of the record reached. -/
def nodeRead (archive : List (List Nat)) (archiveIndex offset : Nat)
    (length : Option Nat) : Option (List Nat) :=
  match archive.drop archiveIndex with
  | [] => none
  | body :: _ => nodeReadBody body offset length

/-! ## Tree builder (src/tree.rs, Tree::new) -/

/-- Entry types distinguished by the builder; every other tar entry type is
skipped with a warning. -/
inductive EntryType where
  | regular
  | directory
  | symlink
  | hardlink
  | other
deriving DecidableEq, Repr

/-- One record of the tar entry iterator, already split into path
components by the path library.  Header accessors that return `Result` in
Rust (`uid`, `gid`, `mode`) are `Option`; `linkTargetBytes` is the raw link
target of a symlink, `linkTargetPath` the same target as path components
for a hard link. -/
structure Entry where
  path : List String
  etype : EntryType
  size : Nat
  mtime : Nat
  uid : Option Nat
  gid : Option Nat
  uname : Option String
  gname : Option String
  mode : Option Nat
  linkTargetBytes : Option String
  linkTargetPath : Option (List String)

/-- Pending hard link recorded during the entry pass. -/
structure Link where
  path : List String
  name : String
  target : List String

/-- Options of `Tree::new`, with the host user and group databases as
oracle functions. -/
structure BuildOpts where
  numericOwner : Bool
  forceUid : Option Nat
  forceGid : Option Nat
  forceMode : Option Nat
  userDb : String → Option Nat
  groupDb : String → Option Nat

/-- Rust closure `resolve_uid`: forced id first, else the raw header id
under `numeric_owner`, else the user name resolved through the host user
database, falling back to the raw header id. -/
def resolveUid (opts : BuildOpts) (name : Option String) (uid : Option Nat) :
    Except String Nat :=
  match opts.forceUid with
  | some u => .ok u
  | none =>
    if opts.numericOwner then
      match uid with
      | some u => .ok u
      | none => .error "Failed to get uid of entry"
    else
      match name.bind opts.userDb with
      | some u => .ok u
      | none =>
        match uid with
        | some u => .ok u
        | none => .error "Failed to get uid of entry"

/-- Rust closure `resolve_gid`, symmetric to `resolve_uid`. -/
def resolveGid (opts : BuildOpts) (name : Option String) (gid : Option Nat) :
    Except String Nat :=
  match opts.forceGid with
  | some g => .ok g
  | none =>
    if opts.numericOwner then
      match gid with
      | some g => .ok g
      | none => .error "Failed to get gid of entry"
    else
      match name.bind opts.groupDb with
      | some g => .ok g
      | none =>
        match gid with
        | some g => .ok g
        | none => .error "Failed to get gid of entry"

/-- Rust closure `calculate_perms`: a forced mode is masked with `0o777`
and, for a directory entry, its read bits are propagated into the execute
bits; without a forced mode, the header mode is masked with `0o777`. -/
def calculatePerms (forceMode : Option Nat) (etype : EntryType)
    (headerMode : Option Nat) : Except String Nat :=
  match forceMode with
  | some m0 =>
    let m := m0 &&& 0o777
    .ok (if etype = .directory then m ||| ((m &&& 0o444) >>> 2) else m)
  | none =>
    match headerMode with
    | some m => .ok (m &&& 0o777)
    | none => .error "Failed to get mode of entry"

/-- Synthetic root directory of `Tree::new`. -/
def rootNode (rootMtime : Nat) : Node :=
  .dir 1 "" [] rootMtime 0 0 0o555

/-- State threaded through the entry pass: the tree under construction, the
pending hard links, and the next fresh id. -/
structure BuildState where
  root : Node
  links : List Link
  nextId : Nat

/-- Error message of the orphan `bail!` in `Tree::new`. -/
def orphanedMsg : String := "Skipping orphaned entry"

/-- One iteration of the entry loop of `Tree::new` at stream ordinal `idx`:
entries without a final name or of unknown type are skipped, hard links are
queued, other entries become nodes placed at their parent directory.  An
orphaned entry makes the whole build fail (`bail!`), and so does a missing
link target name or an unresolvable owner. -/
def buildStep (opts : BuildOpts) (st : BuildState) (idx : Nat) (e : Entry) :
    Except String BuildState :=
  match e.path.getLast? with
  | none => .ok st
  | some name =>
    match e.etype with
    | .hardlink =>
      match e.linkTargetPath with
      | none => .error "Missing link name"
      | some tgt =>
        .ok { st with links := st.links ++ [⟨e.path, name, tgt⟩] }
    | .other => .ok st
    | .regular => do
      let uid ← resolveUid opts e.uname e.uid
      let gid ← resolveGid opts e.gname e.gid
      let perms ← calculatePerms opts.forceMode e.etype e.mode
      let node : Node := .file st.nextId name e.size e.mtime uid gid perms idx
      match pushChildNode st.root e.path node with
      | some root2 => .ok { st with root := root2, nextId := st.nextId + 1 }
      | none => .error orphanedMsg
    | .symlink => do
      match e.linkTargetBytes with
      | none => .error "Missing link name"
      | some tgt => do
        let uid ← resolveUid opts e.uname e.uid
        let gid ← resolveGid opts e.gname e.gid
        let node : Node := .symlink st.nextId name tgt e.mtime uid gid
        match pushChildNode st.root e.path node with
        | some root2 => .ok { st with root := root2, nextId := st.nextId + 1 }
        | none => .error orphanedMsg
    | .directory => do
      let uid ← resolveUid opts e.uname e.uid
      let gid ← resolveGid opts e.gname e.gid
      let perms ← calculatePerms opts.forceMode e.etype e.mode
      let node : Node := .dir st.nextId name [] e.mtime uid gid perms
      match pushChildNode st.root e.path node with
      | some root2 => .ok { st with root := root2, nextId := st.nextId + 1 }
      | none => .error orphanedMsg

/-- Entry pass of `Tree::new`: fold `buildStep` over the entries with their
stream ordinals. -/
def buildEntriesAux (opts : BuildOpts) :
    BuildState → Nat → List Entry → Except String BuildState
  | st, _, [] => .ok st
  | st, i, e :: es => do
    let st2 ← buildStep opts st i e
    buildEntriesAux opts st2 (i + 1) es

/-- Entry pass starting from the synthetic root with id 1 and the next id
2. -/
def buildEntries (opts : BuildOpts) (rootMtime : Nat) (entries : List Entry) :
    Except String BuildState :=
  buildEntriesAux opts ⟨rootNode rootMtime, [], 2⟩ 0 entries

/-- One iteration of the link loop of `Tree::new`: walk the target path; on
a hit, place a `Link` node at the link path and then increment the link
counter of the target, which succeeds only for a `File` or `Symlink`
target (the `Link` node stays placed even when the increment fails).  A
missing target or an orphaned link path is skipped with a warning. -/
def processLink (root : Node) (incs : List Nat) (l : Link) :
    Node × List Nat :=
  match treeWalk root l.target with
  | none => (root, incs)
  | some t =>
    match pushChildNode root l.path (.link l.name t) with
    | none => (root, incs)
    | some root2 =>
      match t with
      | .file i _ _ _ _ _ _ _ => (root2, incs ++ [i])
      | .symlink i _ _ _ _ _ => (root2, incs ++ [i])
      | _ => (root2, incs)

/-- Link pass of `Tree::new`. -/
def processLinks : Node → List Nat → List Link → Node × List Nat
  | root, incs, [] => (root, incs)
  | root, incs, l :: ls =>
    let p := processLink root incs l
    processLinks p.1 p.2 ls

/-- Rust `Tree::new`: the entry pass followed by the link pass.  The result
is the root node together with the log of link-count increments. -/
def buildTree (opts : BuildOpts) (rootMtime : Nat) (entries : List Entry) :
    Except String (Node × List Nat) := do
  let st ← buildEntries opts rootMtime entries
  .ok (processLinks st.root [] st.links)

/-! ## Mount-time FUSE adapter (src/filesystem.rs)

This is the adapter wired up by `main.rs`.  Replies are typed; a handler
returning `none` models a Rust panic. -/

/-- Reply sent back to the kernel by an upcall handler. -/
inductive Reply where
  | opened (fh flags : Nat)
  | data (bytes : List Nat)
  | error (code : Nat)
deriving DecidableEq, Repr

/-- Rust slice `buf[start..end]`: panics (`none`) unless
`start ≤ end ≤ buf.len()`. -/
def sliceBuf (buf : List Nat) (start stop : Nat) : Option (List Nat) :=
  if start ≤ stop ∧ stop ≤ buf.length then
    some ((buf.drop start).take (stop - start))
  else none

/-- Tail of `Filesystem::read`: slice the materialized buffer at
`[offset .. min(offset + size, buf.len())]`. -/
def fsReadFromBuf (buf : List Nat) (offset size : Nat) : Option (List Nat) :=
  sliceBuf buf offset (min (offset + size) buf.length)

/-- State of the `Filesystem` struct of src/filesystem.rs: the immutable
tree (root plus increment log), the archive reachable through the
`open_archive` closure (`archiveOk` tells whether that closure succeeds,
`archiveOpens` counts its successful invocations), the handle counter, and
the handle map.  A handle maps to `some none` before its buffer is
materialized and to `some (some buf)` afterwards. -/
structure FsState where
  tree : Node
  incs : List Nat
  archive : List (List Nat)
  archiveOk : Bool
  archiveOpens : Nat
  nextFh : Nat
  handles : Nat → Option (Option (List Nat))

/-- Rust `Filesystem::open`: reply `ENOENT` for an unknown inode, otherwise
allocate the next handle with an empty buffer and reply with it.  No
archive access and no `EISDIR` check happens here. -/
def fsOpen (st : FsState) (ino : Nat) : Reply × FsState :=
  match Node.find st.tree ino with
  | none => (.error ENOENT, st)
  | some _ =>
    let fh := st.nextFh
    (.opened fh FOPEN_KEEP_CACHE,
      { st with
          nextFh := fh + 1,
          handles := fun k => if k = fh then some none else st.handles k })

/-- Rust `Filesystem::read`: a missing handle replies `ENOENT`; a handle
without a buffer looks up the inode, opens the archive afresh and
materializes the whole entry through one iteration
(`node.read(archive, 0, None)`), storing the buffer in the handle; the
common tail (`withBuf`) replies with the slice of the buffer at the
requested range.  The result is `none` where the handler panics: the
buffer slice when the offset lies past the buffer, and the `unwrap` inside
`Node::read` when the archive index lies past the archive (in the pure
model every other failure of `Node::read` at offset 0 is impossible, so
its `none` is exactly the panic; a Rust-side `Err` would reply `ENOENT`).
A non-file inode makes `Node::read` bail with an error and the handler
replies `ENOENT`; the archive had already been opened at that point. -/
def fsRead (st : FsState) (ino fh offset size : Nat) :
    Option (Reply × FsState) :=
  let withBuf : FsState → List Nat → Option (Reply × FsState) :=
    fun st2 buf =>
      match fsReadFromBuf buf offset size with
      | none => none
      | some bytes => some (.data bytes, st2)
  match st.handles fh with
  | none => some (.error ENOENT, st)
  | some bufOpt =>
    match bufOpt with
    | some buf => withBuf st buf
    | none =>
      match Node.find st.tree ino with
      | none => some (.error ENOENT, st)
      | some node =>
        if st.archiveOk then
          let st1 := { st with archiveOpens := st.archiveOpens + 1 }
          match node with
          | .file _ _ _ _ _ _ _ idx =>
            match nodeRead st1.archive idx 0 none with
            | some buf =>
              withBuf
                { st1 with
                    handles := fun k =>
                      if k = fh then some (some buf) else st1.handles k }
                buf
            | none => none
          | _ => some (.error ENOENT, st1)
        else some (.error ENOENT, st)

/-! ## Second adapter generation (src/node.rs and src/fs.rs) -/

/-- Node of src/node.rs (UTF-8 paths through camino). -/
inductive NNode where
  | file (index : Nat) (name path : String) (size mode mtime uid gid : Nat)
  | dir (index : Nat) (name path : String) (mode mtime uid gid : Nat)
      (children : List NNode)
  | symlink (index : Nat) (name path : String) (mtime uid gid : Nat)
      (target : String)
  | hlink (index : Nat) (name path target : String)

/-- Rust `Node::path` of src/node.rs. -/
def NNode.path : NNode → String
  | .file _ _ p _ _ _ _ _ => p
  | .dir _ _ p _ _ _ _ _ => p
  | .symlink _ _ p _ _ _ _ => p
  | .hlink _ _ p _ => p

/-- Whether the node is the `Directory` variant of src/node.rs. -/
def NNode.isDir : NNode → Bool
  | .dir _ _ _ _ _ _ _ _ => true
  | _ => false

/-- Rust `Node::attr` of src/node.rs.  Every `nlink` is the constant 1; a
symlink reports exactly the byte length of its target as size; the `Link`
variant panics (`none`).  The mode is truncated to 16 bits by the
`as u16` cast. -/
def NNode.attr : NNode → Option FileAttr
  | .file i _ _ s mo m u g =>
    some { ino := i, size := s, blocks := 0, atime := m, mtime := m,
           ctime := m, crtime := m, kind := .regularFile, perm := mo % 2 ^ 16,
           nlink := 1, uid := u, gid := g, rdev := 0, blksize := 0, flags := 0 }
  | .dir i _ _ mo m u g _ =>
    some { ino := i, size := 0, blocks := 0, atime := m, mtime := m,
           ctime := m, crtime := m, kind := .directory, perm := mo % 2 ^ 16,
           nlink := 1, uid := u, gid := g, rdev := 0, blksize := 0, flags := 0 }
  | .symlink i _ _ m u g t =>
    some { ino := i, size := t.utf8ByteSize, blocks := 0, atime := m,
           mtime := m, ctime := m, crtime := m, kind := .symlink,
           perm := 0o777, nlink := 1, uid := u, gid := g, rdev := 0,
           blksize := 0, flags := 0 }
  | .hlink _ _ _ _ => none

/-- State of the `ArchiveFs` struct of src/fs.rs: the inode map, the handle
map holding the contents of opened cache files, the handle counter, and the
entry cache modelled as an oracle from entry path to the materialized bytes
(`none` when the cache fails). -/
structure AfsState where
  inodes : Nat → Option NNode
  fhs : Nat → Option (List Nat)
  nextFh : Nat
  cacheOpen : String → Option (List Nat)

/-- Rust `ArchiveFs::open`: unknown inode replies `ENOENT`; a directory
replies `EISDIR` before any handle is allocated; otherwise the next handle
is allocated, the entry is materialized through the cache, and the handle
is stored and returned, or `EIO` is returned when the cache fails (the
handle counter stays incremented in that case). -/
def afsOpen (st : AfsState) (ino : Nat) : Reply × AfsState :=
  match st.inodes ino with
  | none => (.error ENOENT, st)
  | some n =>
    if n.isDir then (.error EISDIR, st)
    else
      let fh := st.nextFh
      let st1 := { st with nextFh := fh + 1 }
      match st.cacheOpen n.path with
      | some f =>
        (.opened fh 0,
          { st1 with fhs := fun k => if k = fh then some f else st1.fhs k })
      | none => (.error EIO, st1)

/-! ## Link-count bookkeeping

Companion definitions for the link pass: which target id (if any) one link
entry credits, and how many links credit a given id over the whole pass.
They follow the same resolution steps as `processLink`. -/

/-- Id credited by processing one hard link against the current tree: the
target path must walk to a node, the `Link` node must be placeable at the
link path, and the resolved target must be a `File` or a `Symlink`. -/
def linkIncId (root : Node) (l : Link) : Option Nat :=
  match treeWalk root l.target with
  | none => none
  | some t =>
    match pushChildNode root l.path (.link l.name t) with
    | none => none
    | some _ =>
      match t with
      | .file i _ _ _ _ _ _ _ => some i
      | .symlink i _ _ _ _ _ => some i
      | _ => none

/-- Tree resulting from processing one link (increment log ignored). -/
def stepRoot (root : Node) (l : Link) : Node :=
  (processLink root [] l).1

/-- Number of hard links in the list that credit id `i`, each resolved
against the tree as it stands when that link is processed. -/
def countLinksResolvedTo : Node → List Link → Nat → Nat
  | _, [], _ => 0
  | root, l :: ls, i =>
    (if linkIncId root l = some i then 1 else 0)
      + countLinksResolvedTo (stepRoot root l) ls i

/-! ## Concrete fixtures used by the claim theorems -/

/-- File node with id 2, name `f`, size 3, archive index 0. -/
def fNode : Node := .file 2 "f" 3 0 0 0 0o644 0

/-- Root directory holding only `fNode`. -/
def smallRoot : Node := .dir 1 "" [fNode] 0 0 0 0o555

/-- Build options: numeric owner, nothing forced, empty host databases. -/
def opts0 : BuildOpts :=
  { numericOwner := true, forceUid := none, forceGid := none,
    forceMode := none, userDb := fun _ => none, groupDb := fun _ => none }

/-- Regular entry `f` with body size 1 at the archive root. -/
def eF : Entry :=
  { path := ["f"], etype := .regular, size := 1, mtime := 0, uid := some 0,
    gid := some 0, uname := none, gname := none, mode := some 0o644,
    linkTargetBytes := none, linkTargetPath := none }

/-- Hard-link entry `x` whose target path `missing` names no entry. -/
def eLinkMissing : Entry :=
  { path := ["x"], etype := .hardlink, size := 0, mtime := 0, uid := some 0,
    gid := some 0, uname := none, gname := none, mode := some 0o644,
    linkTargetBytes := none, linkTargetPath := some ["missing"] }

/-- Regular entry `d/f` whose parent directory `d` has no entry. -/
def eOrphan : Entry :=
  { path := ["d", "f"], etype := .regular, size := 1, mtime := 0,
    uid := some 0, gid := some 0, uname := none, gname := none,
    mode := some 0o644, linkTargetBytes := none, linkTargetPath := none }

/-- Hard-link entry `d/g` with resolvable target `f` but missing parent
directory `d`. -/
def eLinkOrphanParent : Entry :=
  { path := ["d", "g"], etype := .hardlink, size := 0, mtime := 0,
    uid := some 0, gid := some 0, uname := none, gname := none,
    mode := some 0o644, linkTargetBytes := none,
    linkTargetPath := some ["f"] }

/-- Filesystem state of src/filesystem.rs whose handle 0 already holds the
materialized 3-byte buffer of the only archive entry. -/
def panicSt : FsState :=
  { tree := smallRoot, incs := [], archive := [[104, 105, 10]],
    archiveOk := true, archiveOpens := 0, nextFh := 1,
    handles := fun k => if k = 0 then some (some [104, 105, 10]) else none }

/-- Filesystem state of src/filesystem.rs whose tree has only the root
directory (inode 1). -/
def dirOnlySt : FsState :=
  { tree := .dir 1 "" [] 0 0 0 0o555, incs := [], archive := [],
    archiveOk := true, archiveOpens := 0, nextFh := 0,
    handles := fun _ => none }

/-- Link entry fixture for the link-count theorems: link `g` at the archive
root targeting `f`. -/
def gLink : Link := { path := ["g"], name := "g", target := ["f"] }

/-- Directory node of src/node.rs. -/
def w8dir : NNode := .dir 1 "root" "" 0o555 0 0 0 []

/-- File node of src/node.rs with path `f`. -/
def w8file : NNode := .file 2 "f" "f" 3 0o644 0 0 0

/-- File node of src/node.rs with path `g`, absent from the cache. -/
def w8file2 : NNode := .file 3 "g" "g" 3 0o644 0 0 0

/-- ArchiveFs state of src/fs.rs: directory at inode 1, files at inodes 2
and 3; the entry cache materializes only path `f`. -/
def w8st : AfsState :=
  { inodes := fun i =>
      if i = 1 then some w8dir
      else if i = 2 then some w8file
      else if i = 3 then some w8file2
      else none,
    fhs := fun _ => none,
    nextFh := 5,
    cacheOpen := fun p => if p = "f" then some [9] else none }

/-- Mount-time filesystem state with one 2-byte file and no open handles. -/
def w10base : FsState :=
  { tree := .dir 1 "" [.file 2 "f" 2 0 0 0 0o644 0] 0 0 0 0o555,
    incs := [], archive := [[9, 8]], archiveOk := true, archiveOpens := 0,
    nextFh := 0, handles := fun _ => none }

/-- Same state with handle 5 open and not yet materialized. -/
def w10open : FsState :=
  { w10base with
      nextFh := 6,
      handles := fun k => if k = 5 then some none else none }

/-- Same state with handle 5 holding the materialized buffer. -/
def w10buf : FsState :=
  { w10base with
      nextFh := 6,
      archiveOpens := 1,
      handles := fun k => if k = 5 then some (some [9, 8]) else none }

/-! ## Helper lemmas -/

/-- Evaluation of the fake-seek loop: `k` full-buffer reads advance the
position by `size * k` when they fit in the body. -/
theorem seekLoop_eval (len size k : Nat) :
    ∀ pos, pos + size * k ≤ len →
      seekLoop len size pos k = some (pos + size * k) := by
  induction k with
  | zero => intro pos h; simp [seekLoop]
  | succ k ih =>
    intro pos h
    have hmul : size * (k + 1) = size * k + size := by ring
    have hs : pos + size ≤ len := by omega
    have h2 : pos + size + size * k ≤ len := by omega
    have hrec := ih (pos + size) h2
    rw [seekLoop, readExact, if_pos hs]
    show seekLoop len size (pos + size) k = some (pos + size * (k + 1))
    rw [hrec]
    congr 1
    omega

/-- The requested read size never exceeds the bytes remaining after the
offset. -/
theorem readSize_le (s o : Nat) (n : Option Nat) : readSize s o n ≤ s - o := by
  cases n <;> simp [readSize]

/-- The fake seek lands exactly on the clamped offset whenever the offset
is zero or the computed size is positive. -/
theorem fakeSeek_eval (s o size : Nat) (ho : o ≤ s) (hsz : size ≤ s - o)
    (hnz : o = 0 ∨ 0 < size) : fakeSeek s o size = some o := by
  by_cases ho0 : 0 < o
  · have hszpos : 0 < size := by
      rcases hnz with h | h
      · omega
      · exact h
    have hskip : (0 : Nat) + size * (o / size) ≤ s := by
      have h1 : o / size * size ≤ o := Nat.div_mul_le_self o size
      have h2 : size * (o / size) = o / size * size := by ring
      omega
    have hdm : size * (o / size) + o % size = o := Nat.div_add_mod o size
    rw [fakeSeek, if_pos ho0, if_neg (by omega), seekLoop_eval _ _ _ 0 hskip]
    show (if 0 < o % size then readExact s (0 + size * (o / size)) (o % size)
          else some (0 + size * (o / size))) = some o
    by_cases hrest : 0 < o % size
    · rw [if_pos hrest, readExact, if_pos (by omega)]
      congr 1
      omega
    · rw [if_neg hrest]
      congr 1
      omega
  · have ho' : o = 0 := by omega
    subst ho'
    rw [fakeSeek, if_neg (by omega)]

/-- Read of `Node::read` on the entry body: under the panic-freedom side
condition the buffer is exactly the requested slice of the body. -/
theorem nodeReadBody_correct (body : List Nat) (o : Nat) (n : Option Nat)
    (ho : o ≤ body.length) (hnz : o = 0 ∨ 0 < readSize body.length o n) :
    nodeReadBody body o n
      = some ((body.drop o).take (readSize body.length o n)) := by
  have hmin : min o body.length = o := min_eq_left ho
  have hsz : readSize body.length o n ≤ body.length - o := readSize_le _ _ _
  have hfake := fakeSeek_eval body.length o (readSize body.length o n) ho hsz hnz
  unfold nodeReadBody
  simp only [hmin, hfake]
  rw [readExact, if_pos (by omega)]

/-- Read of the whole entry body from offset zero. -/
theorem nodeReadBody_zero (body : List Nat) :
    nodeReadBody body 0 none = some body := by
  have h := nodeReadBody_correct body 0 none (Nat.zero_le _) (Or.inl rfl)
  simpa [readSize] using h

/-- Processing one link splits into the tree update and the appended
increment. -/
theorem processLink_eq (root : Node) (incs : List Nat) (l : Link) :
    processLink root incs l
      = ((processLink root [] l).1, incs ++ (linkIncId root l).toList) := by
  unfold processLink linkIncId
  cases hw : treeWalk root l.target with
  | none => simp
  | some t =>
    cases hp : pushChildNode root l.path (.link l.name t) with
    | none => simp [hp]
    | some r2 => cases t <;> simp [hp]

/-- Bookkeeping of the link pass: the increments logged for an id are the
initial ones plus the number of links credited to that id. -/
theorem processLinks_count (links : List Link) :
    ∀ (root : Node) (incs : List Nat) (i : Nat),
      ((processLinks root incs links).2).count i
        = incs.count i + countLinksResolvedTo root links i := by
  induction links with
  | nil =>
    intro root incs i
    simp [processLinks, countLinksResolvedTo]
  | cons l ls ih =>
    intro root incs i
    have hstep : processLinks root incs (l :: ls)
        = processLinks (stepRoot root l) (incs ++ (linkIncId root l).toList)
            ls := by
      rw [processLinks, processLink_eq]
      rfl
    rw [hstep, ih, countLinksResolvedTo, List.count_append]
    have hcnt : ((linkIncId root l).toList).count i
        = if linkIncId root l = some i then 1 else 0 := by
      cases h : linkIncId root l with
      | none => simp
      | some j =>
        by_cases hj : j = i
        · simp [hj]
        · simp [List.count_cons, hj, Ne.symm hj]
    rw [hcnt]
    omega

/-! ## Claim theorems -/

/-- C1 (amended): for a `File` node whose entry body lies at `archiveIndex`
in a fresh archive iteration, every offset `o ≤ size` and optional length
`n` with `o = 0` or `min(n, size - o) > 0`, `Node::read` returns a buffer
of exactly `min(n, size - o)` bytes (`size - o` when `n` is unset) equal to
the body bytes from `o` onwards; in particular `read(0, unset)` returns the
body verbatim.  When the offset is positive and the computed size is zero
the function instead panics with a division by zero (see the
counterexample). -/
theorem nodeRead_correct (archive : List (List Nat)) (idx : Nat)
    (body : List Nat) (tail : List (List Nat))
    (harch : archive.drop idx = body :: tail)
    (o : Nat) (n : Option Nat) (ho : o ≤ body.length)
    (hnz : o = 0 ∨ 0 < readSize body.length o n) :
    nodeRead archive idx o n
      = some ((body.drop o).take (readSize body.length o n))
    ∧ ((body.drop o).take (readSize body.length o n)).length
      = readSize body.length o n
    ∧ nodeRead archive idx 0 none = some body := by
  have h1 : nodeRead archive idx o n = nodeReadBody body o n := by
    rw [nodeRead, harch]
  have h0 : nodeRead archive idx 0 none = nodeReadBody body 0 none := by
    rw [nodeRead, harch]
  refine ⟨?_, ?_, ?_⟩
  · rw [h1, nodeReadBody_correct body o n ho hnz]
  · rw [List.length_take, List.length_drop]
    exact min_eq_left (readSize_le _ _ _)
  · rw [h0, nodeReadBody_zero]

/-- Witness for C1: reading one byte at offset 1 of the 3-byte entry
returns exactly that byte. -/
theorem nodeRead_correct_witness :
    nodeRead [[1, 2, 3]] 0 1 (some 1) = some [2]
    ∧ (1 : Nat) ≤ 3 ∧ 0 < readSize 3 1 (some 1) := by
  have h := nodeRead_correct [[1, 2, 3]] 0 [1, 2, 3] [] rfl 1 (some 1)
    (by decide) (Or.inr (by decide))
  exact ⟨h.1.trans (by decide), by decide, by decide⟩

/-- Counterexample for C1: at offset 1 = size of a 1-byte entry with the
length unset, the claim demands an empty buffer, but `Node::read` computes
size 0 and panics on `offset / size`. -/
theorem nodeRead_offset_at_eof_panics :
    nodeRead [[7]] 0 1 none = none ∧ nodeRead [[7]] 0 1 none ≠ some [] :=
  ⟨rfl, by decide⟩

/-- C2: the read upcall of src/filesystem.rs panics for an offset past the
buffered content (the slice `buf[start..end]` has `start > end`), and
`Node::read` divides by zero at offset = entry size; both contradict the
claim that every handler replies without panicking.  The state `panicSt`
holds the materialized 3-byte buffer of its only entry under handle 0. -/
theorem read_upcall_panics :
    fsRead panicSt 2 0 4 1 = none
    ∧ fsReadFromBuf [104, 105, 10] 4 1 = none
    ∧ nodeRead [[104, 105, 10]] 0 3 none = none :=
  ⟨rfl, rfl, rfl⟩

/-- C3: `Tree::walk` returns the root for the empty path, but for a path
whose component matches no child it returns the current node (here the
root) instead of none, contradicting the claim. -/
theorem walk_missing_component_returns_current :
    treeWalk smallRoot [] = some smallRoot
    ∧ treeWalk smallRoot ["missing"] = some smallRoot
    ∧ (treeWalk smallRoot ["missing"]).isSome = true :=
  ⟨rfl, rfl, rfl⟩

/-- C4: building the archive `[regular f, hardlink x → missing]` completes,
but a node for `x` is created anyway — the broken walk resolves the missing
target to the root directory, the `Link` node is placed, and only the
link-count increment fails — so `lookup(1, "x")` finds a node instead of
reporting `ENOENT`. -/
theorem orphan_link_creates_node :
    (buildTree opts0 7 [eF, eLinkMissing]).map
      (fun p => (Node.lookup p.1 1 "x").isSome) = .ok true := rfl

/-- C5: an entry whose parent directory does not exist makes `Tree::new`
bail out with an error instead of skipping the entry and continuing, so the
build of `[regular d/f]` fails. -/
theorem orphan_entry_aborts_build :
    buildTree opts0 7 [eOrphan] = .error orphanedMsg := rfl

/-- Counterexample for C6: in the archive `[regular f, hardlink d/g → f]`
the link target `f` resolves to the file node, yet the file keeps
`nlink = 1` because the link itself is orphan-dropped (its parent `d` does
not exist) and the increment is skipped; the claim demands `nlink = 2`. -/
theorem nlink_orphan_parent_link_cex :
    (buildTree opts0 7 [eF, eLinkOrphanParent]).map
      (fun p => (treeWalk p.1 ["f"]).map (fun t => (Node.attr p.2 t).nlink))
      = .ok (some 1)
    ∧ (buildTree opts0 7 [eF, eLinkOrphanParent]).map
      (fun p => (treeWalk p.1 ["f"]).map (fun t => (Node.attr p.2 t).nlink))
      ≠ .ok (some 2) := by
  have h1 : (buildTree opts0 7 [eF, eLinkOrphanParent]).map
      (fun p => (treeWalk p.1 ["f"]).map (fun t => (Node.attr p.2 t).nlink))
      = .ok (some 1) := rfl
  refine ⟨h1, fun h => ?_⟩
  have h2 := h1.symm.trans h
  simp at h2

/-- C6 (amended): after the link pass, the `nlink` reported for a `File` or
`Symlink` node equals 1 plus the number of hard-link entries that were
credited to its id: those whose target walks to a `File` or `Symlink` with
that id in the tree current at their processing step and whose own `Link`
node was successfully placed at its parent.  Orphan-placed or
non-file/symlink-resolved links are not counted.  The queries `find`,
`lookup`, `walk` and `read` are pure and do not touch the count. -/
theorem tree_nlink_eq_one_plus_counted (root : Node) (links : List Link)
    (t : Node) (ht : t.isFileOrSymlink = true) :
    (Node.attr (processLinks root [] links).2 t).nlink
      = 1 + countLinksResolvedTo root links t.id := by
  have h := processLinks_count links root [] t.id
  simp only [List.count_nil, Nat.zero_add] at h
  cases t with
  | file i nm s m u g p a =>
    show 1 + List.count (Node.id (Node.file i nm s m u g p a))
          (processLinks root [] links).2
        = 1 + countLinksResolvedTo root links
            (Node.id (Node.file i nm s m u g p a))
    rw [h]
  | symlink i nm tg m u g =>
    show 1 + List.count (Node.id (Node.symlink i nm tg m u g))
          (processLinks root [] links).2
        = 1 + countLinksResolvedTo root links
            (Node.id (Node.symlink i nm tg m u g))
    rw [h]
  | dir i nm cs m u g p => simp [Node.isFileOrSymlink] at ht
  | link nm tg => simp [Node.isFileOrSymlink] at ht

/-- Witness for C6: with one placeable link `g → f` the file node reports
`nlink = 2`. -/
theorem tree_nlink_eq_one_plus_counted_witness :
    (Node.attr (processLinks smallRoot [] [gLink]).2 fNode).nlink = 2
    ∧ fNode.isFileOrSymlink = true := by
  refine ⟨?_, rfl⟩
  have h := tree_nlink_eq_one_plus_counted smallRoot [gLink] fNode rfl
  exact h.trans (by decide)

/-- Counterexample for C7: the `Node::attr` of src/tree.rs reports size 10
for a symlink whose target `../target` is 9 bytes long. -/
theorem symlink_size_cex :
    (Node.attr [] (.symlink 2 "l" "../target" 0 0 0)).size = 10
    ∧ "../target".utf8ByteSize = 9
    ∧ (Node.attr [] (.symlink 2 "l" "../target" 0 0 0)).size
        ≠ "../target".utf8ByteSize :=
  ⟨rfl, rfl, by decide⟩

/-- C7 (amended): for every symlink node, the `FileAttr` has kind `Symlink`
and perm `0o777` in both implementations; the size is the byte length of
the target plus one in `Node::attr` of src/tree.rs, and exactly the byte
length in `Node::attr` of src/node.rs. -/
theorem symlink_attr_spec (i m u g idx2 mt2 u2 g2 : Nat)
    (nm t nm2 p2 : String) (incs : List Nat) :
    (Node.attr incs (.symlink i nm t m u g)).size = t.utf8ByteSize + 1
    ∧ (Node.attr incs (.symlink i nm t m u g)).kind = .symlink
    ∧ (Node.attr incs (.symlink i nm t m u g)).perm = 0o777
    ∧ (NNode.attr (.symlink idx2 nm2 p2 mt2 u2 g2 t)).map FileAttr.size
        = some t.utf8ByteSize
    ∧ (NNode.attr (.symlink idx2 nm2 p2 mt2 u2 g2 t)).map FileAttr.kind
        = some .symlink
    ∧ (NNode.attr (.symlink idx2 nm2 p2 mt2 u2 g2 t)).map FileAttr.perm
        = some 0o777 :=
  ⟨rfl, rfl, rfl, rfl, rfl, rfl⟩

/-- Counterexample for C8: the `open` upcall of src/filesystem.rs (the
adapter mounted by main.rs) opens a directory inode without any `EISDIR`
check and allocates a handle. -/
theorem open_directory_no_eisdir_cex :
    (fsOpen dirOnlySt 1).1 = .opened 0 FOPEN_KEEP_CACHE
    ∧ (fsOpen dirOnlySt 1).1 ≠ .error EISDIR :=
  ⟨rfl, by decide⟩

/-- C8 (amended): in `ArchiveFs::open` of src/fs.rs a directory inode is
rejected with `EISDIR` and the state is left untouched (no handle
allocated); a non-directory inode gets the next handle allocated and the
materialized cache file stored under it, and the reply carries the handle;
when the cache fails the reply is `EIO` and no handle is stored (the handle
counter stays incremented).  An unknown inode replies `ENOENT`. -/
theorem archivefs_open_spec (st : AfsState) (ino : Nat) (n : NNode)
    (hfind : st.inodes ino = some n) :
    (n.isDir = true → afsOpen st ino = (.error EISDIR, st))
    ∧ (∀ f, n.isDir = false → st.cacheOpen n.path = some f →
        (afsOpen st ino).1 = .opened st.nextFh 0
        ∧ (afsOpen st ino).2.fhs st.nextFh = some f
        ∧ (afsOpen st ino).2.nextFh = st.nextFh + 1)
    ∧ (n.isDir = false → st.cacheOpen n.path = none →
        afsOpen st ino = (.error EIO, { st with nextFh := st.nextFh + 1 })) := by
  refine ⟨?_, ?_, ?_⟩
  · intro hdir
    unfold afsOpen
    rw [hfind]
    simp [hdir]
  · intro f hnd hcache
    unfold afsOpen
    rw [hfind]
    simp [hnd, hcache]
  · intro hnd hcache
    unfold afsOpen
    rw [hfind]
    simp [hnd, hcache]

/-- Witness for C8: in the concrete `ArchiveFs` state, opening the
directory inode 1 replies `EISDIR` and changes nothing, opening the cached
file inode 2 allocates handle 5, and opening the uncached file inode 3
replies `EIO`. -/
theorem archivefs_open_spec_witness :
    afsOpen w8st 1 = (.error EISDIR, w8st)
    ∧ (afsOpen w8st 2).1 = .opened 5 0
    ∧ (afsOpen w8st 2).2.fhs 5 = some [9]
    ∧ (afsOpen w8st 3).1 = .error EIO := by
  have h1 := (archivefs_open_spec w8st 1 w8dir rfl).1 rfl
  have h2 := (archivefs_open_spec w8st 2 w8file rfl).2.1 [9] rfl rfl
  have h3 := (archivefs_open_spec w8st 3 w8file2 rfl).2.2 rfl rfl
  refine ⟨h1, h2.1, h2.2.1, ?_⟩
  rw [h3]

/-- C9: under a forced mode `m`, `calculate_perms` gives every
non-directory entry `m & 0o777` and every directory entry
`(m & 0o777) | (((m & 0o777) & 0o444) >> 2)`; without a forced mode every
entry gets its header mode masked with `0o777`; in particular mode `0o640`
gives files `0o640` and directories `0o750`. -/
theorem calculatePerms_spec (m hm : Nat) (et : EntryType)
    (hnd : et ≠ .directory) :
    calculatePerms (some m) et (some hm) = .ok (m &&& 0o777)
    ∧ calculatePerms (some m) .directory (some hm)
        = .ok ((m &&& 0o777) ||| (((m &&& 0o777) &&& 0o444) >>> 2))
    ∧ calculatePerms none et (some hm) = .ok (hm &&& 0o777)
    ∧ calculatePerms none .directory (some hm) = .ok (hm &&& 0o777)
    ∧ calculatePerms (some 0o640) .regular (some hm) = .ok 0o640
    ∧ calculatePerms (some 0o640) .directory (some hm) = .ok 0o750 := by
  refine ⟨?_, rfl, rfl, rfl, rfl, rfl⟩
  unfold calculatePerms
  simp [hnd]

/-- Witness for C9 at a concrete non-directory entry type. -/
theorem calculatePerms_spec_witness :
    calculatePerms (some 0o640) .regular (some 0o123) = .ok 0o640
    ∧ (EntryType.regular ≠ .directory) := by
  refine ⟨?_, by decide⟩
  exact (calculatePerms_spec 0 0o123 .regular (by decide)).2.2.2.2.1

/-- C10: in the adapter of src/filesystem.rs used at mount time, `open`
performs no archive access and succeeds for every existing inode,
allocating a fresh empty handle; the first `read` on a handle materializes
the whole entry body through exactly one fresh archive scan and stores it
in that handle, leaving every other handle, the tree, the archive and the
handle counter unchanged; every further `read` on the handle is served from
the stored buffer with no archive access and no state change at all. -/
theorem fs_open_read_spec (st : FsState) (ino fh offset size : Nat) :
    (∀ node, Node.find st.tree ino = some node →
      (fsOpen st ino).1 = .opened st.nextFh FOPEN_KEEP_CACHE
      ∧ (fsOpen st ino).2.archiveOpens = st.archiveOpens
      ∧ (fsOpen st ino).2.tree = st.tree
      ∧ (fsOpen st ino).2.archive = st.archive
      ∧ (fsOpen st ino).2.handles st.nextFh = some none)
    ∧ (∀ i2 nm fsz mt u g p idx body tail,
        st.handles fh = some none →
        Node.find st.tree ino = some (.file i2 nm fsz mt u g p idx) →
        st.archiveOk = true →
        st.archive.drop idx = body :: tail →
        offset ≤ body.length →
        ∃ st2,
          fsRead st ino fh offset size
            = some (.data ((body.drop offset).take
                (min (offset + size) body.length - offset)), st2)
          ∧ st2.archiveOpens = st.archiveOpens + 1
          ∧ st2.handles fh = some (some body)
          ∧ (∀ fh2, fh2 ≠ fh → st2.handles fh2 = st.handles fh2)
          ∧ st2.tree = st.tree ∧ st2.archive = st.archive
          ∧ st2.nextFh = st.nextFh ∧ st2.incs = st.incs)
    ∧ (∀ buf,
        st.handles fh = some (some buf) →
        offset ≤ buf.length →
        fsRead st ino fh offset size
          = some (.data ((buf.drop offset).take
              (min (offset + size) buf.length - offset)), st)) := by
  refine ⟨?_, ?_, ?_⟩
  · intro node hfind
    unfold fsOpen
    rw [hfind]
    refine ⟨rfl, rfl, rfl, rfl, ?_⟩
    simp
  · intro i2 nm fsz mt u g p idx body tail hh hfind hok harch hoff
    have hread : nodeRead st.archive idx 0 none = some body := by
      rw [nodeRead, harch]
      exact nodeReadBody_zero body
    have hc : offset ≤ min (offset + size) body.length
        ∧ min (offset + size) body.length ≤ body.length :=
      ⟨le_min (Nat.le_add_right _ _) hoff, min_le_right _ _⟩
    have hslice : fsReadFromBuf body offset size
        = some ((body.drop offset).take
            (min (offset + size) body.length - offset)) := by
      rw [fsReadFromBuf, sliceBuf, if_pos hc]
    refine ⟨{ st with
        archiveOpens := st.archiveOpens + 1,
        handles := fun k =>
          if k = fh then some (some body) else st.handles k }, ?_, rfl, ?_,
      ?_, rfl, rfl, rfl, rfl⟩
    · unfold fsRead
      simp only [hh, hfind, hok, if_true, hread, hslice]
    · simp
    · intro fh2 hne
      simp [hne]
  · intro buf hh hoff
    have hc : offset ≤ min (offset + size) buf.length
        ∧ min (offset + size) buf.length ≤ buf.length :=
      ⟨le_min (Nat.le_add_right _ _) hoff, min_le_right _ _⟩
    have hslice : fsReadFromBuf buf offset size
        = some ((buf.drop offset).take
            (min (offset + size) buf.length - offset)) := by
      rw [fsReadFromBuf, sliceBuf, if_pos hc]
    unfold fsRead
    simp only [hh, hslice]

/-- Witness for C10: open succeeds on the file inode; the first read on
handle 5 scans the archive once and returns the requested byte; the second
read is served from the buffer with the state unchanged. -/
theorem fs_open_read_spec_witness :
    (fsOpen w10base 2).1 = .opened 0 FOPEN_KEEP_CACHE
    ∧ (fsOpen w10base 2).2.archiveOpens = 0
    ∧ (∃ st2, fsRead w10open 2 5 1 1 = some (.data [8], st2)
        ∧ st2.archiveOpens = 1
        ∧ st2.handles 5 = some (some [9, 8])
        ∧ st2.tree = w10open.tree)
    ∧ fsRead w10buf 2 5 1 1 = some (.data [8], w10buf) := by
  have h1 := (fs_open_read_spec w10base 2 0 0 0).1
    (.file 2 "f" 2 0 0 0 0o644 0) rfl
  have h2 := (fs_open_read_spec w10open 2 5 1 1).2.1
    2 "f" 2 0 0 0 0o644 0 [9, 8] [] rfl rfl rfl rfl (by decide)
  have h3 := (fs_open_read_spec w10buf 2 5 1 1).2.2 [9, 8] rfl (by decide)
  refine ⟨h1.1, h1.2.1, ?_, ?_⟩
  · obtain ⟨st2, heq, hops, hhand, hrest⟩ := h2
    exact ⟨st2, by simpa using heq, hops, hhand, hrest.2.1⟩
  · simpa using h3

end Tarfs
